import Mathlib

/-!
Shallow embedding of the resilience core of the trading-engine repository:
the circuit breaker, the performance monitor, the gRPC client request
pipeline and the inter-service client manager
(`src/trading_system/infrastructure/grpc_clients.py` and
`src/trading_system/infrastructure/performance_monitor.py`).

Modelling conventions:
* Wall-clock instants and durations (Python floats from `time.time()`) are
  modelled as exact rationals `ℚ`; float rounding is not modelled.
* Each completed unit of work is summarised by whether it succeeded and by
  the wall-clock instants at which the call started and settled.
* Exceptions are modelled with explicit result values (`Except`, or the
  `CircuitCallResult` tag carrying the raised error).
-/

namespace TradingEngine

/-- `ServiceCommunicationError` from `grpc_clients.py`: message plus optional
service/operation context. -/
structure ServiceCommunicationError where
  message : String
  service : Option String := none
  operation : Option String := none
  deriving Repr, DecidableEq

/-- `CircuitBreakerState` enum from `grpc_clients.py`. -/
inductive CircuitBreakerState where
  | CLOSED
  | OPEN
  | HALF_OPEN
  deriving Repr, DecidableEq

/-- Mutable state of the `CircuitBreaker` class: configuration, state machine
fields and cumulative statistics. -/
structure CircuitBreaker where
  failure_threshold : Nat
  recovery_timeout : ℚ
  service_name : String
  state : CircuitBreakerState
  failure_count : Nat
  last_failure_time : Option ℚ
  last_success_time : Option ℚ
  total_calls : Nat
  successful_calls : Nat
  failed_calls : Nat
  deriving Repr, DecidableEq

/-- `CircuitBreaker.__init__`. -/
def CircuitBreaker.init (failure_threshold : Nat) (recovery_timeout : ℚ)
    (service_name : String) : CircuitBreaker :=
  { failure_threshold := failure_threshold
    recovery_timeout := recovery_timeout
    service_name := service_name
    state := .CLOSED
    failure_count := 0
    last_failure_time := none
    last_success_time := none
    total_calls := 0
    successful_calls := 0
    failed_calls := 0 }

/-- `CircuitBreaker._should_attempt_reset`: true iff a failure timestamp
exists and at least `recovery_timeout` has elapsed since it. -/
def CircuitBreaker.should_attempt_reset (cb : CircuitBreaker) (now : ℚ) : Bool :=
  match cb.last_failure_time with
  | none => false
  | some t => decide (cb.recovery_timeout ≤ now - t)

/-- The error raised by `call` when the breaker is open
(`ServiceCommunicationError(f"Circuit breaker open for service {...}")`). -/
def CircuitBreaker.openError (service_name : String) : ServiceCommunicationError :=
  { message := "Circuit breaker open for service " ++ service_name
    service := some service_name }

/-- First half of `CircuitBreaker.call`, up to the point where the unit of
work would be awaited: increment `total_calls`, then either pass the gate
(possibly moving OPEN to HALF_OPEN) or reject.  Returns the breaker state
observable while the unit of work is in flight, and whether the work runs. -/
def CircuitBreaker.gate (cb : CircuitBreaker) (now : ℚ) : CircuitBreaker × Bool :=
  let cb1 := { cb with total_calls := cb.total_calls + 1 }
  if cb1.state = .OPEN then
    if cb1.should_attempt_reset now then
      ({ cb1 with state := .HALF_OPEN }, true)
    else
      (cb1, false)
  else
    (cb1, true)

/-- `CircuitBreaker._on_success`, with `now` standing for its `time.time()`. -/
def CircuitBreaker.on_success (cb : CircuitBreaker) (now : ℚ) : CircuitBreaker :=
  let cb1 := { cb with
    successful_calls := cb.successful_calls + 1
    last_success_time := some now }
  if cb1.state = .HALF_OPEN then
    { cb1 with state := .CLOSED, failure_count := 0 }
  else
    cb1

/-- `CircuitBreaker._on_failure`, with `now` standing for its `time.time()`. -/
def CircuitBreaker.on_failure (cb : CircuitBreaker) (now : ℚ) : CircuitBreaker :=
  let cb1 := { cb with
    failed_calls := cb.failed_calls + 1
    failure_count := cb.failure_count + 1
    last_failure_time := some now }
  if cb1.failure_threshold ≤ cb1.failure_count then
    { cb1 with state := .OPEN }
  else
    cb1

/-- Outcome of one `CircuitBreaker.call` invocation: rejected while open
(raising the carried error, unit of work not invoked), or the unit of work
ran and succeeded / raised. -/
inductive CircuitCallResult where
  | rejected (e : ServiceCommunicationError)
  | ran_success
  | ran_failure
  deriving Repr, DecidableEq

/-- Whether a call result is a breaker-open rejection. -/
def CircuitCallResult.isRejected : CircuitCallResult → Bool
  | .rejected _ => true
  | _ => false

/-- `CircuitBreaker.call`: gate, then run the unit of work.  `tStart` is the
instant the call is issued (used by the reset check), `tEnd` the instant the
unit of work settles (used by the success/failure handlers), and
`workSucceeds` whether the awaited unit of work returns or raises. -/
def CircuitBreaker.call (cb : CircuitBreaker) (tStart tEnd : ℚ)
    (workSucceeds : Bool) : CircuitBreaker × CircuitCallResult :=
  let (cb1, proceed) := cb.gate tStart
  if proceed then
    if workSucceeds then
      (cb1.on_success tEnd, .ran_success)
    else
      (cb1.on_failure tEnd, .ran_failure)
  else
    (cb1, .rejected (CircuitBreaker.openError cb.service_name))

/-- One completed `call()` invocation, as seen by the breaker: issue and
settle instants plus whether the unit of work succeeds. -/
structure CBEvent where
  tStart : ℚ
  tEnd : ℚ
  ok : Bool
  deriving Repr, DecidableEq

/-- Run a sequence of completed `call()` invocations, counting how many were
rejected while the breaker was open. -/
def CircuitBreaker.run (cb : CircuitBreaker) : List CBEvent → CircuitBreaker × Nat
  | [] => (cb, 0)
  | e :: es =>
    let (cb1, r) := cb.call e.tStart e.tEnd e.ok
    let (cb2, n) := cb1.run es
    (cb2, (if r.isRejected then 1 else 0) + n)

/-- `PerformanceMetrics` dataclass from `performance_monitor.py`.  The field
defaults are the dataclass defaults; the Python sentinel
`min_response_time` = float inf is modelled by `none`. -/
structure PerformanceMetrics where
  total_requests : Nat := 0
  successful_requests : Nat := 0
  failed_requests : Nat := 0
  average_response_time : ℚ := 0
  min_response_time : Option ℚ := none
  max_response_time : ℚ := 0
  last_request_time : Option ℚ := none
  throughput_per_second : ℚ := 0
  deriving Repr, DecidableEq

/-- `RequestMetric` dataclass: one recorded request. -/
structure RequestMetric where
  timestamp : ℚ
  duration : ℚ
  success : Bool
  operation : String
  deriving Repr, DecidableEq

/-- Append to a `collections.deque(maxlen := n)`: append on the right and, if
capacity is exceeded, silently discard from the left. -/
def dequeAppend (maxlen : Nat) (xs : List α) (x : α) : List α :=
  let ys := xs ++ [x]
  ys.drop (ys.length - maxlen)

/-- Mutable state of the `PerformanceMonitor` class.  The `min_duration`
sentinel value float inf is modelled by `none`. -/
structure PerformanceMonitor where
  service_name : String
  window_size : Nat
  request_history : List RequestMetric
  total_requests : Nat
  successful_requests : Nat
  failed_requests : Nat
  total_duration : ℚ
  min_duration : Option ℚ
  max_duration : ℚ
  last_request_time : Option ℚ
  throughput_window : List ℚ
  deriving Repr, DecidableEq

/-- `PerformanceMonitor.__init__` (default `window_size = 1000`; the
throughput deque is created with `maxlen = 60`). -/
def PerformanceMonitor.init (service_name : String) (window_size : Nat := 1000) :
    PerformanceMonitor :=
  { service_name := service_name
    window_size := window_size
    request_history := []
    total_requests := 0
    successful_requests := 0
    failed_requests := 0
    total_duration := 0
    min_duration := none
    max_duration := 0
    last_request_time := none
    throughput_window := [] }

/-- `PerformanceMonitor._update_throughput` acting on the throughput deque:
append the current timestamp (deque capacity 60), then pop from the left
every timestamp strictly older than `now - 60`. -/
def throughputStep (w : List ℚ) (now : ℚ) : List ℚ :=
  (dequeAppend 60 w now).dropWhile (fun t => decide (t < now - 60))

/-- `PerformanceMonitor.record_request`, with `now` standing for the
`time.time()` taken at the start of the method. -/
def PerformanceMonitor.record_request (pm : PerformanceMonitor) (now : ℚ)
    (duration : ℚ) (success : Bool) (operation : String := "unknown") :
    PerformanceMonitor :=
  let metric : RequestMetric :=
    { timestamp := now, duration := duration, success := success
      operation := operation }
  { pm with
    request_history := dequeAppend pm.window_size pm.request_history metric
    total_requests := pm.total_requests + 1
    successful_requests := pm.successful_requests + (if success then 1 else 0)
    failed_requests := pm.failed_requests + (if success then 0 else 1)
    total_duration := pm.total_duration + duration
    min_duration :=
      match pm.min_duration with
      | none => some duration
      | some m => if duration < m then some duration else some m
    max_duration := if pm.max_duration < duration then duration else pm.max_duration
    last_request_time := some now
    throughput_window := throughputStep pm.throughput_window now }

/-- `PerformanceMonitor.get_metrics`: lifetime aggregates plus the throughput
derived from the 60-entry timestamp window. -/
def PerformanceMonitor.get_metrics (pm : PerformanceMonitor) : PerformanceMetrics :=
  { total_requests := pm.total_requests
    successful_requests := pm.successful_requests
    failed_requests := pm.failed_requests
    average_response_time :=
      if 0 < pm.total_requests then pm.total_duration / pm.total_requests else 0
    min_response_time :=
      some (match pm.min_duration with | none => 0 | some m => m)
    max_response_time := pm.max_duration
    last_request_time := pm.last_request_time
    throughput_per_second := (pm.throughput_window.length : ℚ) / 60 }

/-- Python `min` over a nonempty list (`min(durations)`); the `[]` branch is
unreachable at every call site. -/
def listMin : List ℚ → ℚ
  | [] => 0
  | d :: ds => ds.foldl min d

/-- Python `max` over a nonempty list (`max(durations)`). -/
def listMax : List ℚ → ℚ
  | [] => 0
  | d :: ds => ds.foldl max d

/-- `PerformanceMonitor.get_recent_metrics`: recompute every metric from the
window entries with `timestamp ≥ now - seconds`; return the dataclass
defaults when no entry qualifies. -/
def PerformanceMonitor.get_recent_metrics (pm : PerformanceMonitor) (now : ℚ)
    (seconds : ℚ) : PerformanceMetrics :=
  let cutoff := now - seconds
  let recent := pm.request_history.filter (fun r => decide (cutoff ≤ r.timestamp))
  if recent.isEmpty then
    {}
  else
    let durations := recent.map (fun r => r.duration)
    let successful := (recent.filter (fun r => r.success)).length
    { total_requests := recent.length
      successful_requests := successful
      failed_requests := recent.length - successful
      average_response_time := durations.sum / (recent.length : ℚ)
      min_response_time := some (listMin durations)
      max_response_time := listMax durations
      last_request_time := some (listMax (recent.map (fun r => r.timestamp)))
      throughput_per_second := (recent.length : ℚ) / seconds }

/-- One `record_request` invocation: the `time.time()` instant plus the
recorded duration, success flag and operation label. -/
structure RecordEvent where
  now : ℚ
  duration : ℚ
  success : Bool
  operation : String
  deriving Repr, DecidableEq

/-- Run a sequence of `record_request` invocations. -/
def PerformanceMonitor.runRecords (pm : PerformanceMonitor) :
    List RecordEvent → PerformanceMonitor
  | [] => pm
  | e :: es => (pm.record_request e.now e.duration e.success e.operation).runRecords es

/-- The exception raised by the unit of work inside `_make_request`, as
classified by its `except` clause: a gRPC transport error, an already-wrapped
communication error, or anything else. -/
inductive WorkError where
  | rpc (details : String)
  | comm (e : ServiceCommunicationError)
  | other (msg : String)
  deriving Repr, DecidableEq

/-- The wrapping performed at the end of `_make_request`: gRPC errors and
unexpected errors are wrapped with service/operation context, an existing
`ServiceCommunicationError` is re-raised unchanged. -/
def wrapError (service operation : String) : WorkError → ServiceCommunicationError
  | .rpc d =>
    { message := "gRPC call failed: " ++ d
      service := some service, operation := some operation }
  | .comm e => e
  | .other m =>
    { message := "Unexpected error in " ++ operation ++ ": " ++ m
      service := some service, operation := some operation }

/-- Mutable state of a `BaseGrpcClient`: connection flag (channel and stub
present), request counters, and the owned circuit breaker and performance
monitor.  `close_raises` models whether the external channel raises when
closed, the one failure mode `cleanup()` can hit. -/
structure BaseGrpcClient where
  host : String
  port : Nat
  timeout : ℚ
  service_name : String
  connected : Bool
  close_raises : Bool
  total_requests : Nat
  successful_requests : Nat
  failed_requests : Nat
  last_request_time : Option ℚ
  circuit_breaker : CircuitBreaker
  performance_monitor : PerformanceMonitor
  deriving Repr, DecidableEq

/-- `BaseGrpcClient.__init__` (breaker built with the constants
`CIRCUIT_BREAKER_FAILURE_THRESHOLD = 5` and
`CIRCUIT_BREAKER_RECOVERY_TIMEOUT = 60`). -/
def BaseGrpcClient.init (host : String) (port : Nat) (timeout : ℚ := 30)
    (service_name : String := "unknown") (close_raises : Bool := false) :
    BaseGrpcClient :=
  { host := host, port := port, timeout := timeout, service_name := service_name
    connected := false
    close_raises := close_raises
    total_requests := 0
    successful_requests := 0
    failed_requests := 0
    last_request_time := none
    circuit_breaker := CircuitBreaker.init 5 60 service_name
    performance_monitor := PerformanceMonitor.init service_name }

/-- Result of one `_make_request` invocation: the updated client, whether the
unit of work was invoked, and the returned value or raised error. -/
structure MakeRequestResult where
  client : BaseGrpcClient
  invoked_work : Bool
  outcome : Except ServiceCommunicationError Unit
  deriving Repr

/-- `BaseGrpcClient._make_request`: lazily connect (the mock stubs connect
without failing), count the request, route the unit of work through the
circuit breaker, record the outcome in the performance monitor, and return
the result or the (possibly wrapped) error.  `start` is the recorded start
time; when the unit of work runs it settles at `start + dur` with result
`workResult` (`none` means success).  A breaker-open rejection raises inside
the same event-loop step, so its recorded duration is `0` and the breaker
error propagates unwrapped. -/
def BaseGrpcClient.make_request (c0 : BaseGrpcClient) (start dur : ℚ)
    (workResult : Option WorkError) (operation : String) : MakeRequestResult :=
  let c := if c0.connected then c0 else { c0 with connected := true }
  let c := { c with
    total_requests := c.total_requests + 1
    last_request_time := some start }
  let g := c.circuit_breaker.gate start
  let cb1 := g.1
  if g.2 then
    match workResult with
    | none =>
      { client := { c with
          circuit_breaker := cb1.on_success (start + dur)
          performance_monitor :=
            c.performance_monitor.record_request (start + dur) dur true operation
          successful_requests := c.successful_requests + 1 }
        invoked_work := true
        outcome := .ok () }
    | some e =>
      { client := { c with
          circuit_breaker := cb1.on_failure (start + dur)
          performance_monitor :=
            c.performance_monitor.record_request (start + dur) dur false operation
          failed_requests := c.failed_requests + 1 }
        invoked_work := true
        outcome := .error (wrapError c.service_name operation e) }
  else
    { client := { c with
        circuit_breaker := cb1
        performance_monitor :=
          c.performance_monitor.record_request start 0 false operation
        failed_requests := c.failed_requests + 1 }
      invoked_work := false
      outcome := .error (CircuitBreaker.openError c.circuit_breaker.service_name) }

/-- `BaseGrpcClient.cleanup`: close the channel if present and clear channel
and stub; closing the external channel may raise, in which case the client is
left unchanged and the error propagates to the caller. -/
def BaseGrpcClient.cleanup (c : BaseGrpcClient) : Except Unit BaseGrpcClient :=
  if c.connected then
    if c.close_raises then .error () else .ok { c with connected := false }
  else
    .ok c

/-- Mutable state of `InterServiceClientManager`: the registry of clients
keyed by service name, the initialized flag, and whether a service-discovery
collaborator is configured. -/
structure InterServiceClientManager where
  clients : List (String × BaseGrpcClient)
  initialized : Bool
  has_service_discovery : Bool
  deriving Repr, DecidableEq

/-- `InterServiceClientManager.get_manager_stats` return value. -/
structure ManagerStats where
  total_clients : Nat
  active_connections : Nat
  initialized : Bool
  service_discovery_enabled : Bool
  client_types : List String
  deriving Repr, DecidableEq

/-- `InterServiceClientManager.get_manager_stats`. -/
def InterServiceClientManager.get_manager_stats (m : InterServiceClientManager) :
    ManagerStats :=
  { total_clients := m.clients.length
    active_connections := (m.clients.filter (fun p => p.2.connected)).length
    initialized := m.initialized
    service_discovery_enabled := m.has_service_discovery
    client_types := m.clients.map (fun p => p.1) }

/-- The `for` loop of `InterServiceClientManager.cleanup`: invoke `cleanup()`
on every registered client, catching (and merely logging) each client's
individual failure so the loop never aborts.  Returns, per registered
service, the result of its cleanup attempt. -/
def cleanupLoop : List (String × BaseGrpcClient) →
    List (String × Except Unit BaseGrpcClient)
  | [] => []
  | (n, c) :: rest => (n, c.cleanup) :: cleanupLoop rest

/-- `InterServiceClientManager.cleanup`: run the cleanup loop over every
registered client, then clear the registry and reset the initialized flag.
Returns the new manager state together with the per-client attempts. -/
def InterServiceClientManager.cleanup (m : InterServiceClientManager) :
    InterServiceClientManager × List (String × Except Unit BaseGrpcClient) :=
  let attempts := cleanupLoop m.clients
  ({ m with clients := [], initialized := false }, attempts)

/-! ## Circuit breaker bookkeeping lemmas -/

/-- `call` written with explicit projections of the gate result. -/
theorem call_def (cb : CircuitBreaker) (t t' : ℚ) (b : Bool) :
    cb.call t t' b =
      (if (cb.gate t).2 then
        (if b then (((cb.gate t).1).on_success t', .ran_success)
         else (((cb.gate t).1).on_failure t', .ran_failure))
       else ((cb.gate t).1, .rejected (CircuitBreaker.openError cb.service_name))) := by
  rcases hg : cb.gate t with ⟨c, p⟩
  simp [CircuitBreaker.call, hg]

/-- Field accounting for `gate`: `total_calls` is incremented, every other
counter and all configuration fields are untouched. -/
theorem gate_fields (cb : CircuitBreaker) (t : ℚ) :
    ((cb.gate t).1).total_calls = cb.total_calls + 1 ∧
    ((cb.gate t).1).successful_calls = cb.successful_calls ∧
    ((cb.gate t).1).failed_calls = cb.failed_calls ∧
    ((cb.gate t).1).failure_count = cb.failure_count ∧
    ((cb.gate t).1).failure_threshold = cb.failure_threshold ∧
    ((cb.gate t).1).recovery_timeout = cb.recovery_timeout ∧
    ((cb.gate t).1).service_name = cb.service_name ∧
    ((cb.gate t).1).last_failure_time = cb.last_failure_time := by
  unfold CircuitBreaker.gate
  dsimp only
  split_ifs <;> simp

/-- Field accounting for `_on_success`. -/
theorem on_success_fields (cb : CircuitBreaker) (t : ℚ) :
    (cb.on_success t).successful_calls = cb.successful_calls + 1 ∧
    (cb.on_success t).failed_calls = cb.failed_calls ∧
    (cb.on_success t).total_calls = cb.total_calls ∧
    (cb.on_success t).failure_threshold = cb.failure_threshold ∧
    (cb.on_success t).recovery_timeout = cb.recovery_timeout ∧
    (cb.on_success t).service_name = cb.service_name ∧
    (cb.on_success t).last_failure_time = cb.last_failure_time := by
  unfold CircuitBreaker.on_success
  dsimp only
  split_ifs <;> simp

/-- Field accounting for `_on_failure`. -/
theorem on_failure_fields (cb : CircuitBreaker) (t : ℚ) :
    (cb.on_failure t).successful_calls = cb.successful_calls ∧
    (cb.on_failure t).failed_calls = cb.failed_calls + 1 ∧
    (cb.on_failure t).total_calls = cb.total_calls ∧
    (cb.on_failure t).failure_count = cb.failure_count + 1 ∧
    (cb.on_failure t).failure_threshold = cb.failure_threshold ∧
    (cb.on_failure t).recovery_timeout = cb.recovery_timeout ∧
    (cb.on_failure t).service_name = cb.service_name ∧
    (cb.on_failure t).last_failure_time = some t := by
  unfold CircuitBreaker.on_failure
  dsimp only
  split_ifs <;> simp

/-- One `call()` increments `total_calls` by one, and increments exactly one
of: `successful_calls`, `failed_calls`, or the rejected-call tally. -/
theorem call_counter_step (cb : CircuitBreaker) (t t' : ℚ) (b : Bool) :
    ((cb.call t t' b).1).total_calls = cb.total_calls + 1 ∧
    ((cb.call t t' b).1).successful_calls + ((cb.call t t' b).1).failed_calls
        + (if ((cb.call t t' b).2).isRejected then 1 else 0)
      = cb.successful_calls + cb.failed_calls + 1 := by
  have hg := gate_fields cb t
  have hs := on_success_fields (cb.gate t).1 t'
  have hf := on_failure_fields (cb.gate t).1 t'
  rw [call_def]
  cases hp : (cb.gate t).2 <;> cases b <;>
    simp_all [CircuitCallResult.isRejected] <;> omega

/-- `call()` never changes the breaker's configuration fields. -/
theorem call_config (cb : CircuitBreaker) (t t' : ℚ) (b : Bool) :
    ((cb.call t t' b).1).failure_threshold = cb.failure_threshold ∧
    ((cb.call t t' b).1).recovery_timeout = cb.recovery_timeout ∧
    ((cb.call t t' b).1).service_name = cb.service_name := by
  have hg := gate_fields cb t
  have hs := on_success_fields (cb.gate t).1 t'
  have hf := on_failure_fields (cb.gate t).1 t'
  rw [call_def]
  cases hp : (cb.gate t).2 <;> cases b <;> simp_all

/-- `run` on a cons, written with explicit projections. -/
theorem run_cons (cb : CircuitBreaker) (e : CBEvent) (es : List CBEvent) :
    cb.run (e :: es) =
      ((((cb.call e.tStart e.tEnd e.ok).1).run es).1,
       (if ((cb.call e.tStart e.tEnd e.ok).2).isRejected then 1 else 0)
         + (((cb.call e.tStart e.tEnd e.ok).1).run es).2) := by
  rcases hc : cb.call e.tStart e.tEnd e.ok with ⟨c, r⟩
  rcases hr : c.run es with ⟨c2, n⟩
  simp [CircuitBreaker.run, hc, hr]

/-- Running a sequence of calls adds the sequence length to `total_calls`,
and distributes it over successes, failures and rejected calls. -/
theorem run_counter (es : List CBEvent) : ∀ cb : CircuitBreaker,
    ((cb.run es).1).total_calls = cb.total_calls + es.length ∧
    ((cb.run es).1).successful_calls + ((cb.run es).1).failed_calls + (cb.run es).2
      = cb.successful_calls + cb.failed_calls + es.length := by
  induction es with
  | nil => intro cb; simp [CircuitBreaker.run]
  | cons e es ih =>
    intro cb
    have hstep := call_counter_step cb e.tStart e.tEnd e.ok
    have htail := ih (cb.call e.tStart e.tEnd e.ok).1
    rw [run_cons]
    dsimp only
    simp only [List.length_cons]
    constructor
    · omega
    · omega

/-- C1 (amended): for every breaker and every sequence of completed `call()`
invocations, `total_calls` equals `successful_calls + failed_calls` plus the
number of calls rejected while the breaker was OPEN; the spec's equality
`total_calls = successful_calls + failed_calls` therefore holds exactly when
no call was rejected. -/
theorem total_calls_balance (F : Nat) (rt : ℚ) (name : String)
    (es : List CBEvent) :
    (((CircuitBreaker.init F rt name).run es).1).total_calls
      = (((CircuitBreaker.init F rt name).run es).1).successful_calls
        + (((CircuitBreaker.init F rt name).run es).1).failed_calls
        + ((CircuitBreaker.init F rt name).run es).2 := by
  have h := run_counter es (CircuitBreaker.init F rt name)
  have h1 : (CircuitBreaker.init F rt name).total_calls = 0 := rfl
  have h2 : (CircuitBreaker.init F rt name).successful_calls = 0 := rfl
  have h3 : (CircuitBreaker.init F rt name).failed_calls = 0 := rfl
  rw [h1, h2, h3] at h
  omega

/-- C1 (counterexample): with `failure_threshold = 1`, one failing call at
time 0 opens the breaker and a second call at time 1 is rejected; after that
completed (raising) `call()` invocation, `total_calls = 2` while
`successful_calls + failed_calls = 1`. -/
theorem total_calls_counterexample :
    ((CircuitBreaker.init 1 60 "svc").run
        [⟨0, 0, false⟩, ⟨1, 1, true⟩]).2 = 1 ∧
    (((CircuitBreaker.init 1 60 "svc").run
        [⟨0, 0, false⟩, ⟨1, 1, true⟩]).1).total_calls = 2 ∧
    (((CircuitBreaker.init 1 60 "svc").run
        [⟨0, 0, false⟩, ⟨1, 1, true⟩]).1).successful_calls
      + (((CircuitBreaker.init 1 60 "svc").run
        [⟨0, 0, false⟩, ⟨1, 1, true⟩]).1).failed_calls = 1 := by
  refine ⟨?_, ?_, ?_⟩ <;>
    simp +decide [CircuitBreaker.run, CircuitBreaker.call, CircuitBreaker.gate,
      CircuitBreaker.should_attempt_reset, CircuitBreaker.on_success,
      CircuitBreaker.on_failure, CircuitBreaker.init, CircuitCallResult.isRejected]

/-- C5: for a breaker in the OPEN state with last failure at `lf`, a call
issued strictly before `recovery_timeout` has elapsed is rejected with the
breaker-open error and the breaker stays OPEN; a call issued at or after
that point executes the unit of work (HALF_OPEN), and if the work succeeds
the breaker transitions to CLOSED with `failure_count` reset to 0. -/
theorem open_breaker_recovery (cb : CircuitBreaker) (lf tStart tEnd : ℚ)
    (b : Bool) (hopen : cb.state = .OPEN)
    (hlf : cb.last_failure_time = some lf) :
    (tStart - lf < cb.recovery_timeout →
      (cb.call tStart tEnd b).2
          = .rejected (CircuitBreaker.openError cb.service_name) ∧
      ((cb.call tStart tEnd b).1).state = .OPEN) ∧
    (cb.recovery_timeout ≤ tStart - lf →
      (cb.call tStart tEnd b).2 = (if b then .ran_success else .ran_failure) ∧
      (b = true → ((cb.call tStart tEnd b).1).state = .CLOSED ∧
        ((cb.call tStart tEnd b).1).failure_count = 0)) := by
  unfold CircuitBreaker.call CircuitBreaker.gate CircuitBreaker.should_attempt_reset
    CircuitBreaker.on_success CircuitBreaker.on_failure
  constructor
  · intro h
    have hd : ¬ cb.recovery_timeout ≤ tStart - lf := not_le.mpr h
    simp [hopen, hlf, hd]
  · intro h
    cases b <;> simp [hopen, hlf, h]

/-- C5 (witness): threshold 1, a failure at time 0 opens the breaker; a call
at time 10 is rejected, while a successful call at time 60 closes the
breaker and resets `failure_count`. -/
theorem open_breaker_recovery_witness :
    (((CircuitBreaker.init 1 60 "svc").call 0 0 false).1.call 10 10 true).2
        = .rejected (CircuitBreaker.openError "svc") ∧
    ((((CircuitBreaker.init 1 60 "svc").call 0 0 false).1.call 60 60 true).1).state
        = .CLOSED ∧
    ((((CircuitBreaker.init 1 60 "svc").call 0 0 false).1.call 60 60 true).1).failure_count
        = 0 := by
  have hopen : (((CircuitBreaker.init 1 60 "svc").call 0 0 false).1).state = .OPEN := by
    simp [CircuitBreaker.call, CircuitBreaker.gate, CircuitBreaker.on_failure,
      CircuitBreaker.init]
  have hlf : (((CircuitBreaker.init 1 60 "svc").call 0 0 false).1).last_failure_time
      = some 0 := by
    simp [CircuitBreaker.call, CircuitBreaker.gate, CircuitBreaker.on_failure,
      CircuitBreaker.init]
  have hrt : (((CircuitBreaker.init 1 60 "svc").call 0 0 false).1).recovery_timeout
      = 60 := by
    simp [CircuitBreaker.call, CircuitBreaker.gate, CircuitBreaker.on_failure,
      CircuitBreaker.init]
  have hname : (((CircuitBreaker.init 1 60 "svc").call 0 0 false).1).service_name
      = "svc" := by
    simp [CircuitBreaker.call, CircuitBreaker.gate, CircuitBreaker.on_failure,
      CircuitBreaker.init]
  refine ⟨?_, ?_, ?_⟩
  · have h := (open_breaker_recovery _ 0 10 10 true hopen hlf).1
      (by rw [hrt]; norm_num)
    rw [hname] at h
    exact h.1
  · exact (((open_breaker_recovery _ 0 60 60 true hopen hlf).2
      (by rw [hrt]; norm_num)).2 rfl).1
  · exact (((open_breaker_recovery _ 0 60 60 true hopen hlf).2
      (by rw [hrt]; norm_num)).2 rfl).2

/-- C10: a successful `call()` while the breaker is CLOSED leaves
`failure_count` unchanged, so the threshold counts cumulative failures since
the last reset; in particular with threshold 5, four failures, one success
and one more failure still open the breaker. -/
theorem closed_success_keeps_failure_count (cb : CircuitBreaker)
    (tStart tEnd : ℚ) (hclosed : cb.state = .CLOSED) :
    ((cb.call tStart tEnd true).1).failure_count = cb.failure_count ∧
    (((CircuitBreaker.init 5 60 "svc").run
        [⟨0, 0, false⟩, ⟨1, 1, false⟩, ⟨2, 2, false⟩, ⟨3, 3, false⟩,
         ⟨4, 4, true⟩, ⟨5, 5, false⟩]).1).state = .OPEN ∧
    (((CircuitBreaker.init 5 60 "svc").run
        [⟨0, 0, false⟩, ⟨1, 1, false⟩, ⟨2, 2, false⟩, ⟨3, 3, false⟩,
         ⟨4, 4, true⟩, ⟨5, 5, false⟩]).1).failure_count = 5 := by
  refine ⟨?_, ?_, ?_⟩
  · have hgate : cb.gate tStart = ({cb with total_calls := cb.total_calls + 1}, true) := by
      unfold CircuitBreaker.gate
      dsimp only
      rw [if_neg]
      simp [hclosed]
    rw [call_def, hgate]
    simp [CircuitBreaker.on_success, hclosed]
  · simp +decide [CircuitBreaker.run, CircuitBreaker.call, CircuitBreaker.gate,
      CircuitBreaker.should_attempt_reset, CircuitBreaker.on_success,
      CircuitBreaker.on_failure, CircuitBreaker.init, CircuitCallResult.isRejected]
  · simp +decide [CircuitBreaker.run, CircuitBreaker.call, CircuitBreaker.gate,
      CircuitBreaker.should_attempt_reset, CircuitBreaker.on_success,
      CircuitBreaker.on_failure, CircuitBreaker.init, CircuitCallResult.isRejected]

/-- C10 (witness): a successful call on a fresh CLOSED breaker keeps
`failure_count = 0`. -/
theorem closed_success_keeps_failure_count_witness :
    (((CircuitBreaker.init 5 60 "svc").call 0 0 true).1).failure_count
      = (CircuitBreaker.init 5 60 "svc").failure_count :=
  (closed_success_keeps_failure_count (CircuitBreaker.init 5 60 "svc") 0 0
    rfl).1

/-! ## Circuit breaker state-machine lemmas -/

/-- A successful `call` when the gate lets the unit of work run. -/
theorem call_gate_true_succ (cb : CircuitBreaker) (t t' : ℚ)
    (g : CircuitBreaker) (hg : cb.gate t = (g, true)) :
    cb.call t t' true = (g.on_success t', .ran_success) := by
  rw [call_def, hg]
  rfl

/-- A failing `call` when the gate lets the unit of work run. -/
theorem call_gate_true_fail (cb : CircuitBreaker) (t t' : ℚ)
    (g : CircuitBreaker) (hg : cb.gate t = (g, true)) :
    cb.call t t' false = (g.on_failure t', .ran_failure) := by
  rw [call_def, hg]
  rfl

/-- `call` when the gate rejects. -/
theorem call_of_gate_false (cb : CircuitBreaker) (t t' : ℚ) (b : Bool)
    (g : CircuitBreaker) (hg : cb.gate t = (g, false)) :
    cb.call t t' b = (g, .rejected (CircuitBreaker.openError cb.service_name)) := by
  rw [call_def, hg]
  rfl

/-- Case characterization of `gate`. -/
theorem gate_char (cb : CircuitBreaker) (t : ℚ) :
    (cb.state = .OPEN ∧ cb.should_attempt_reset t = true ∧
      cb.gate t = ({ cb with
        total_calls := cb.total_calls + 1
        state := .HALF_OPEN }, true)) ∨
    (cb.state = .OPEN ∧ cb.should_attempt_reset t = false ∧
      cb.gate t = ({ cb with total_calls := cb.total_calls + 1 }, false)) ∨
    (cb.state ≠ .OPEN ∧
      cb.gate t = ({ cb with total_calls := cb.total_calls + 1 }, true)) := by
  unfold CircuitBreaker.gate CircuitBreaker.should_attempt_reset
  dsimp only
  split_ifs with h1 h2
  · left; exact ⟨h1, h2, rfl⟩
  · right; left; exact ⟨h1, by simpa using h2, rfl⟩
  · right; right; exact ⟨h1, rfl⟩

/-- Case characterization of `_on_success`. -/
theorem on_success_char (cb : CircuitBreaker) (t : ℚ) :
    (cb.state = .HALF_OPEN ∧
      cb.on_success t = { cb with
        successful_calls := cb.successful_calls + 1
        last_success_time := some t
        state := .CLOSED
        failure_count := 0 }) ∨
    (cb.state ≠ .HALF_OPEN ∧
      cb.on_success t = { cb with
        successful_calls := cb.successful_calls + 1
        last_success_time := some t }) := by
  unfold CircuitBreaker.on_success
  dsimp only
  split_ifs with h1
  · left; exact ⟨h1, rfl⟩
  · right; exact ⟨h1, rfl⟩

/-- Case characterization of `_on_failure`. -/
theorem on_failure_char (cb : CircuitBreaker) (t : ℚ) :
    (cb.failure_threshold ≤ cb.failure_count + 1 ∧
      cb.on_failure t = { cb with
        failed_calls := cb.failed_calls + 1
        failure_count := cb.failure_count + 1
        last_failure_time := some t
        state := .OPEN }) ∨
    (¬ cb.failure_threshold ≤ cb.failure_count + 1 ∧
      cb.on_failure t = { cb with
        failed_calls := cb.failed_calls + 1
        failure_count := cb.failure_count + 1
        last_failure_time := some t }) := by
  unfold CircuitBreaker.on_failure
  dsimp only
  split_ifs with h1
  · left; exact ⟨h1, rfl⟩
  · right; exact ⟨h1, rfl⟩

/-- A call issued while OPEN, before the recovery timeout has elapsed since
the last failure, is rejected: the only state change is the `total_calls`
increment and the raised error carries the service name. -/
theorem call_rejected_of_open (cb : CircuitBreaker) (t t' lf : ℚ) (b : Bool)
    (h1 : cb.state = .OPEN) (h2 : cb.last_failure_time = some lf)
    (h3 : t - lf < cb.recovery_timeout) :
    cb.call t t' b = ({ cb with total_calls := cb.total_calls + 1 },
      .rejected (CircuitBreaker.openError cb.service_name)) := by
  apply call_of_gate_false
  unfold CircuitBreaker.gate CircuitBreaker.should_attempt_reset
  dsimp only
  rw [if_pos h1, if_neg]
  simp [h2, not_le.mpr h3]

/-- Run preserves the breaker configuration fields. -/
theorem run_config (es : List CBEvent) : ∀ cb : CircuitBreaker,
    ((cb.run es).1).failure_threshold = cb.failure_threshold ∧
    ((cb.run es).1).recovery_timeout = cb.recovery_timeout ∧
    ((cb.run es).1).service_name = cb.service_name := by
  induction es with
  | nil => intro cb; simp [CircuitBreaker.run]
  | cons e es ih =>
    intro cb
    have h1 := call_config cb e.tStart e.tEnd e.ok
    have h2 := ih (cb.call e.tStart e.tEnd e.ok).1
    rw [run_cons]
    dsimp only
    exact ⟨h2.1.trans h1.1, h2.2.1.trans h1.2.1, h2.2.2.trans h1.2.2⟩

/-- Single failing executed call from a CLOSED breaker: `failure_count`
increments, the state opens exactly when the threshold is reached, and the
failure instant is recorded. -/
theorem call_fail_closed (cb : CircuitBreaker) (t t' : ℚ)
    (h1 : cb.state = .CLOSED) :
    ((cb.call t t' false).1).failure_count = cb.failure_count + 1 ∧
    ((cb.call t t' false).1).last_failure_time = some t' ∧
    (cb.failure_threshold ≤ cb.failure_count + 1 →
      ((cb.call t t' false).1).state = .OPEN) ∧
    (¬ cb.failure_threshold ≤ cb.failure_count + 1 →
      ((cb.call t t' false).1).state = .CLOSED) := by
  have hgate : cb.gate t = ({ cb with total_calls := cb.total_calls + 1 }, true) := by
    unfold CircuitBreaker.gate
    dsimp only
    rw [if_neg]
    simp [h1]
  rw [call_gate_true_fail cb t t' _ hgate]
  rcases on_failure_char { cb with total_calls := cb.total_calls + 1 } t' with
    ⟨hth, heq⟩ | ⟨hth, heq⟩ <;> rw [heq] <;>
    refine ⟨rfl, rfl, fun h => ?_, fun h => ?_⟩ <;> simp_all [h1]

/-- Single failing call from an OPEN breaker at or above the threshold:
whether rejected or executed via HALF_OPEN, the breaker ends OPEN, still at
or above the threshold, with a recorded failure instant. -/
theorem call_fail_open (cb : CircuitBreaker) (t t' : ℚ)
    (h1 : cb.state = .OPEN)
    (h2 : cb.failure_threshold ≤ cb.failure_count)
    (h3 : cb.last_failure_time ≠ none) :
    ((cb.call t t' false).1).state = .OPEN ∧
    ((cb.call t t' false).1).failure_threshold ≤
      ((cb.call t t' false).1).failure_count ∧
    ((cb.call t t' false).1).last_failure_time ≠ none := by
  rcases gate_char cb t with ⟨-, -, hg⟩ | ⟨-, -, hg⟩ | ⟨hne, -⟩
  · rw [call_gate_true_fail cb t t' _ hg]
    rcases on_failure_char { cb with
        total_calls := cb.total_calls + 1
        state := .HALF_OPEN } t' with ⟨hth, heq⟩ | ⟨hth, heq⟩ <;> rw [heq]
    · refine ⟨rfl, ?_, by simp⟩
      simp
      omega
    · exact absurd (by simp; omega) hth
  · rw [call_of_gate_false cb t t' false _ hg]
    exact ⟨h1, h2, h3⟩
  · exact absurd h1 hne

/-- Invariant of all-failing runs: starting CLOSED below the threshold, the
run either stays CLOSED having counted every failure, or has opened and
stays OPEN at or above the threshold with a recorded failure instant. -/
theorem run_allfail_inv (es : List CBEvent) : ∀ cb : CircuitBreaker,
    (∀ e ∈ es, e.ok = false) →
    ((cb.state = .CLOSED ∧ cb.failure_count < cb.failure_threshold) ∨
      (cb.state = .OPEN ∧ cb.failure_threshold ≤ cb.failure_count ∧
        cb.last_failure_time ≠ none)) →
    (((cb.run es).1.state = .CLOSED ∧
        (cb.run es).1.failure_count = cb.failure_count + es.length ∧
        (cb.run es).1.failure_count < (cb.run es).1.failure_threshold) ∨
      ((cb.run es).1.state = .OPEN ∧
        (cb.run es).1.failure_threshold ≤ (cb.run es).1.failure_count ∧
        (cb.run es).1.last_failure_time ≠ none)) := by
  induction es with
  | nil =>
    intro cb _ h0
    rcases h0 with ⟨hs, hc⟩ | ⟨hs, hc, hl⟩
    · left
      refine ⟨?_, ?_, ?_⟩ <;> simp [CircuitBreaker.run, hs, hc]
    · right
      refine ⟨?_, ?_, ?_⟩ <;> simp [CircuitBreaker.run, hs, hc, hl]
  | cons e es ih =>
    intro cb hfail h0
    have he : e.ok = false := hfail e (List.mem_cons_self e es)
    have hes : ∀ x ∈ es, x.ok = false := fun x hx => hfail x (List.mem_cons_of_mem e hx)
    have hcfg := call_config cb e.tStart e.tEnd e.ok
    have hrcfg := run_config es (cb.call e.tStart e.tEnd e.ok).1
    rw [run_cons]
    dsimp only
    rcases h0 with ⟨hs, hc⟩ | ⟨hs, hc, hl⟩
    · have hstep := call_fail_closed cb e.tStart e.tEnd hs
      rw [he] at hcfg hrcfg ⊢
      by_cases hth : cb.failure_threshold ≤ cb.failure_count + 1
      · have hinv2 := ih (cb.call e.tStart e.tEnd false).1 hes
          (Or.inr ⟨hstep.2.2.1 hth, by rw [hstep.1, hcfg.1]; exact hth,
            by rw [hstep.2.1]; simp⟩)
        rcases hinv2 with ⟨h2a, h2b, h2c⟩ | h2
        · exfalso
          rw [hrcfg.1, hcfg.1, hstep.1] at *
          omega
        · exact Or.inr h2
      · have hinv2 := ih (cb.call e.tStart e.tEnd false).1 hes
          (Or.inl ⟨hstep.2.2.2 hth, by rw [hstep.1, hcfg.1]; omega⟩)
        rcases hinv2 with ⟨h2a, h2b, h2c⟩ | h2
        · left
          refine ⟨h2a, ?_, h2c⟩
          rw [h2b, hstep.1, List.length_cons]
          omega
        · exact Or.inr h2
    · have hstep := call_fail_open cb e.tStart e.tEnd hs hc hl
      rw [he] at hcfg hrcfg ⊢
      have hinv2 := ih (cb.call e.tStart e.tEnd false).1 hes (Or.inr hstep)
      rcases hinv2 with ⟨h2a, h2b, h2c⟩ | h2
      · exfalso
        rw [hrcfg.1] at h2c
        omega
      · exact Or.inr h2

/-- C4: from a fresh breaker with threshold `F ≥ 1`, any sequence of at
least `F` failing calls leaves the breaker OPEN with `failure_count ≥ F`;
a further call issued strictly before the recovery timeout has elapsed since
the recorded last failure is rejected with the breaker-open error naming the
service, and the unit of work is not invoked: the only state change is the
`total_calls` increment. -/
theorem failure_threshold_opens (F : Nat) (rt : ℚ) (name : String)
    (es : List CBEvent) (hF : 1 ≤ F) (hN : F ≤ es.length)
    (hfail : ∀ e ∈ es, e.ok = false) :
    (((CircuitBreaker.init F rt name).run es).1).state = .OPEN ∧
    F ≤ (((CircuitBreaker.init F rt name).run es).1).failure_count ∧
    ∃ lf, (((CircuitBreaker.init F rt name).run es).1).last_failure_time = some lf ∧
      ∀ t t' b, t - lf < rt →
        (((CircuitBreaker.init F rt name).run es).1).call t t' b
          = ({ ((CircuitBreaker.init F rt name).run es).1 with
                total_calls :=
                  (((CircuitBreaker.init F rt name).run es).1).total_calls + 1 },
             .rejected (CircuitBreaker.openError name)) := by
  have hcfg := run_config es (CircuitBreaker.init F rt name)
  have hinv := run_allfail_inv es (CircuitBreaker.init F rt name) hfail
    (Or.inl ⟨rfl, hF⟩)
  rcases hinv with ⟨h2a, h2b, h2c⟩ | ⟨hs, hc, hl⟩
  · exfalso
    have hz : (CircuitBreaker.init F rt name).failure_count = 0 := rfl
    have hftF : ((CircuitBreaker.init F rt name).run es).1.failure_threshold = F := by
      rw [hcfg.1]; rfl
    omega
  · have hth : (CircuitBreaker.init F rt name).failure_threshold = F := rfl
    refine ⟨hs, by rw [hcfg.1, hth] at hc; exact hc, ?_⟩
    cases ho : (((CircuitBreaker.init F rt name).run es).1).last_failure_time with
    | none => exact absurd ho hl
    | some lf =>
      refine ⟨lf, rfl, fun t t' b ht => ?_⟩
      have hrt : (((CircuitBreaker.init F rt name).run es).1).recovery_timeout = rt :=
        hcfg.2.1
      have hnm : (((CircuitBreaker.init F rt name).run es).1).service_name = name :=
        hcfg.2.2
      have hrej := call_rejected_of_open (((CircuitBreaker.init F rt name).run es).1)
        t t' lf b hs ho (by rw [hrt]; exact ht)
      have hoe : CircuitBreaker.openError
          ((((CircuitBreaker.init F rt name).run es).1).service_name)
          = CircuitBreaker.openError name := by rw [hnm]
      rw [hrej, hoe]

/-- C4 (witness): threshold 5, five consecutive failing calls open the
breaker with `failure_count ≥ 5`. -/
theorem failure_threshold_opens_witness :
    (((CircuitBreaker.init 5 60 "risk-monitor").run
        [⟨0, 0, false⟩, ⟨1, 1, false⟩, ⟨2, 2, false⟩, ⟨3, 3, false⟩,
         ⟨4, 4, false⟩]).1).state = .OPEN ∧
    5 ≤ (((CircuitBreaker.init 5 60 "risk-monitor").run
        [⟨0, 0, false⟩, ⟨1, 1, false⟩, ⟨2, 2, false⟩, ⟨3, 3, false⟩,
         ⟨4, 4, false⟩]).1).failure_count := by
  have h := failure_threshold_opens 5 60 "risk-monitor"
    [⟨0, 0, false⟩, ⟨1, 1, false⟩, ⟨2, 2, false⟩, ⟨3, 3, false⟩, ⟨4, 4, false⟩]
    (by decide) (by decide) (by decide)
  exact ⟨h.1, h.2.1⟩

/-- Breaker states reachable from a fresh breaker: via completed calls, or
via the gate of an in-flight call (the state observable while the unit of
work is awaited, which is where HALF_OPEN is seen). -/
inductive Reachable (F : Nat) (rt : ℚ) (name : String) : CircuitBreaker → Prop where
  | init : Reachable F rt name (CircuitBreaker.init F rt name)
  | step (cb : CircuitBreaker) (tStart tEnd : ℚ) (b : Bool) :
      Reachable F rt name cb → Reachable F rt name ((cb.call tStart tEnd b).1)
  | inflight (cb : CircuitBreaker) (t : ℚ) :
      Reachable F rt name cb → Reachable F rt name ((cb.gate t).1)

/-- On every reachable breaker state that is OPEN or HALF_OPEN, the failure
count has reached the threshold. -/
theorem reachable_count {F : Nat} {rt : ℚ} {name : String} {cb : CircuitBreaker}
    (h : Reachable F rt name cb) :
    (cb.state = .OPEN ∨ cb.state = .HALF_OPEN) →
      cb.failure_threshold ≤ cb.failure_count := by
  induction h with
  | init =>
    intro h0
    rcases h0 with h0 | h0 <;> exact absurd h0 (by simp [CircuitBreaker.init])
  | step cb tStart tEnd b hr ih =>
    intro h0
    rcases gate_char cb tStart with ⟨hs, -, hg⟩ | ⟨hs, -, hg⟩ | ⟨hs, hg⟩
    · cases b
      · rw [call_gate_true_fail cb tStart tEnd _ hg] at h0 ⊢
        rcases on_failure_char { cb with
            total_calls := cb.total_calls + 1
            state := .HALF_OPEN } tEnd with ⟨hth, heq⟩ | ⟨hth, heq⟩
        · rw [heq]
          dsimp only at hth ⊢
          exact hth
        · dsimp only at hth
          exact absurd (Nat.le_succ_of_le (ih (Or.inl hs))) hth
      · rw [call_gate_true_succ cb tStart tEnd _ hg] at h0 ⊢
        rcases on_success_char { cb with
            total_calls := cb.total_calls + 1
            state := .HALF_OPEN } tEnd with ⟨hth, heq⟩ | ⟨hth, heq⟩
        · rw [heq] at h0
          dsimp only at h0
          rcases h0 with h0 | h0 <;> simp at h0
        · dsimp only at hth
          exact absurd rfl hth
    · rw [call_of_gate_false cb tStart tEnd b _ hg] at h0 ⊢
      dsimp only at h0 ⊢
      exact ih (Or.inl hs)
    · cases b
      · rw [call_gate_true_fail cb tStart tEnd _ hg] at h0 ⊢
        rcases on_failure_char { cb with total_calls := cb.total_calls + 1 } tEnd with
          ⟨hth, heq⟩ | ⟨hth, heq⟩
        · rw [heq]
          dsimp only at hth ⊢
          exact hth
        · rw [heq] at h0
          dsimp only at hth h0 ⊢
          rcases h0 with h0 | h0
          · exact absurd h0 hs
          · have := ih (Or.inr h0)
            omega
      · rw [call_gate_true_succ cb tStart tEnd _ hg] at h0 ⊢
        rcases on_success_char { cb with total_calls := cb.total_calls + 1 } tEnd with
          ⟨hth, heq⟩ | ⟨hth, heq⟩
        · rw [heq] at h0
          dsimp only at h0
          rcases h0 with h0 | h0 <;> simp at h0
        · rw [heq] at h0 ⊢
          dsimp only at h0 ⊢
          exact ih h0
  | inflight cb t hr ih =>
    intro h0
    rcases gate_char cb t with ⟨hs, -, hg⟩ | ⟨hs, -, hg⟩ | ⟨hs, hg⟩ <;>
      rw [hg] at h0 ⊢ <;> dsimp only at h0 ⊢
    · exact ih (Or.inl hs)
    · exact ih (Or.inl hs)
    · exact ih h0

/-- C6: from every reachable breaker state with state HALF_OPEN, a single
failing `call()` transitions the breaker back to OPEN. -/
theorem half_open_failure_reopens {F : Nat} {rt : ℚ} {name : String}
    {cb : CircuitBreaker} (hr : Reachable F rt name cb)
    (hhalf : cb.state = .HALF_OPEN) (tStart tEnd : ℚ) :
    (((cb.call tStart tEnd false).1).state = .OPEN) := by
  have hc := reachable_count hr (Or.inr hhalf)
  rcases gate_char cb tStart with ⟨hs, -, -⟩ | ⟨hs, -, -⟩ | ⟨-, hg⟩
  · rw [hhalf] at hs; exact absurd hs (by simp)
  · rw [hhalf] at hs; exact absurd hs (by simp)
  · rw [call_gate_true_fail cb tStart tEnd _ hg]
    rcases on_failure_char { cb with total_calls := cb.total_calls + 1 } tEnd with
      ⟨hth, heq⟩ | ⟨hth, heq⟩
    · simp [heq]
    · dsimp only at hth
      exact absurd (Nat.le_succ_of_le hc) hth

/-- C6 (witness): with threshold 1, a failure at time 0 opens the breaker;
the gate of a call issued at time 60 moves it to HALF_OPEN (observable while
the trial call is in flight), and a failing call from that state reopens the
breaker. -/
theorem half_open_failure_reopens_witness :
    (((((((CircuitBreaker.init 1 60 "svc").call 0 0 false).1).gate 60).1).call
        61 61 false).1).state = .OPEN := by
  have hhalf : ((((((CircuitBreaker.init 1 60 "svc").call 0 0 false).1).gate 60).1)).state
      = .HALF_OPEN := by
    simp +decide [CircuitBreaker.call, CircuitBreaker.gate,
      CircuitBreaker.should_attempt_reset, CircuitBreaker.on_failure,
      CircuitBreaker.init]
  exact half_open_failure_reopens
    (Reachable.inflight _ 60 (Reachable.step _ 0 0 false Reachable.init)) hhalf 61 61


/-! ## Manager cleanup (C9) -/

/-- The cleanup loop visits every registered client in order, invoking its
cleanup and catching its individual failure. -/
theorem cleanupLoop_eq_map (cs : List (String × BaseGrpcClient)) :
    cleanupLoop cs = cs.map (fun p => (p.1, p.2.cleanup)) := by
  induction cs with
  | nil => rfl
  | cons c cs ih => simp [cleanupLoop, ih]

/-- C9: `InterServiceClientManager.cleanup` invokes `cleanup()` on every
registered client — including the clients whose channel close raises
(`close_raises = true`), since each attempt is caught individually and the
loop never aborts — and afterwards the registry is empty, the initialized
flag is reset, and `get_manager_stats().total_clients = 0`. -/
theorem manager_cleanup_spec (m : InterServiceClientManager) :
    (m.cleanup).2 = m.clients.map (fun p => (p.1, p.2.cleanup)) ∧
    ((m.cleanup).2).map (fun p => p.1) = m.clients.map (fun p => p.1) ∧
    (m.cleanup).1.clients = [] ∧
    (m.cleanup).1.initialized = false ∧
    ((m.cleanup).1.get_manager_stats).total_clients = 0 := by
  have h1 : (m.cleanup).2 = m.clients.map (fun p => (p.1, p.2.cleanup)) :=
    cleanupLoop_eq_map m.clients
  refine ⟨h1, ?_, rfl, rfl, rfl⟩
  rw [h1, List.map_map]
  rfl

/-! ## The request pipeline and breaker-open rejections (C3) -/

/-- The gate of an OPEN breaker rejects every call issued strictly before
the recovery timeout has elapsed since the last failure. -/
theorem gate_rejects_of_open (cb : CircuitBreaker) (t lf : ℚ)
    (h1 : cb.state = .OPEN) (h2 : cb.last_failure_time = some lf)
    (h3 : t - lf < cb.recovery_timeout) :
    cb.gate t = ({ cb with total_calls := cb.total_calls + 1 }, false) := by
  unfold CircuitBreaker.gate CircuitBreaker.should_attempt_reset
  dsimp only
  rw [if_pos h1, if_neg]
  simp [h2, not_le.mpr h3]

/-- A concrete connected client whose breaker is OPEN after five failures,
the last at time 0. -/
def openClient : BaseGrpcClient :=
  { BaseGrpcClient.init "localhost" 50054 30 "risk-monitor" false with
    connected := true
    circuit_breaker := { CircuitBreaker.init 5 60 "risk-monitor" with
      state := .OPEN
      failure_count := 5
      last_failure_time := some 0
      total_calls := 5
      failed_calls := 5 } }

/-- C3 (counterexample): a breaker-open rejection of `_make_request` at time
1 (recovery timeout 60 not elapsed) does not invoke the unit of work, but it
DOES change the client's PerformanceMonitor: the rejected call is recorded as
a failed request, so `total_requests` goes from 0 to 1. -/
theorem make_request_rejection_counterexample :
    (openClient.make_request 1 0 none "health_check").invoked_work = false ∧
    ((openClient.make_request 1 0 none "health_check").client).performance_monitor.total_requests
      = 1 ∧
    openClient.performance_monitor.total_requests = 0 ∧
    ((openClient.make_request 1 0 none "health_check").client).performance_monitor
      ≠ openClient.performance_monitor := by
  refine ⟨?_, ?_, rfl, ?_⟩ <;>
    simp +decide [openClient, BaseGrpcClient.make_request, BaseGrpcClient.init,
      CircuitBreaker.gate, CircuitBreaker.should_attempt_reset, CircuitBreaker.init,
      PerformanceMonitor.record_request, PerformanceMonitor.init, throughputStep,
      dequeAppend]

/-- C3 (amended): when the circuit breaker is OPEN and not yet eligible for
reset, `_make_request` fails immediately with the breaker-open error naming
the service, the unit of work is not invoked (the result does not depend on
the unit of work at all), the breaker records only the `total_calls`
increment — but the rejected call IS recorded in the client's
PerformanceMonitor as a failed request with duration 0, and the client's
`failed_requests` counter increments. -/
theorem make_request_breaker_open (c : BaseGrpcClient) (start dur : ℚ)
    (workResult : Option WorkError) (op : String) (lf : ℚ)
    (hconn : c.connected = true)
    (hopen : c.circuit_breaker.state = .OPEN)
    (hlf : c.circuit_breaker.last_failure_time = some lf)
    (ht : start - lf < c.circuit_breaker.recovery_timeout) :
    (c.make_request start dur workResult op).outcome
        = .error (CircuitBreaker.openError c.circuit_breaker.service_name) ∧
    (CircuitBreaker.openError c.circuit_breaker.service_name).message
        = "Circuit breaker open for service " ++ c.circuit_breaker.service_name ∧
    (CircuitBreaker.openError c.circuit_breaker.service_name).service
        = some c.circuit_breaker.service_name ∧
    (c.make_request start dur workResult op).invoked_work = false ∧
    ((c.make_request start dur workResult op).client).performance_monitor
        = c.performance_monitor.record_request start 0 false op ∧
    ((c.make_request start dur workResult op).client).failed_requests
        = c.failed_requests + 1 ∧
    ((c.make_request start dur workResult op).client).successful_requests
        = c.successful_requests ∧
    ((c.make_request start dur workResult op).client).circuit_breaker
        = { c.circuit_breaker with
            total_calls := c.circuit_breaker.total_calls + 1 } ∧
    (∀ dur2 wr2, c.make_request start dur2 wr2 op
        = c.make_request start dur workResult op) := by
  have hmk : ∀ (d : ℚ) (w : Option WorkError), c.make_request start d w op =
      { client := { c with
          total_requests := c.total_requests + 1
          last_request_time := some start
          circuit_breaker := { c.circuit_breaker with
            total_calls := c.circuit_breaker.total_calls + 1 }
          performance_monitor :=
            c.performance_monitor.record_request start 0 false op
          failed_requests := c.failed_requests + 1 }
        invoked_work := false
        outcome := .error (CircuitBreaker.openError c.circuit_breaker.service_name) } := by
    intro d w
    unfold BaseGrpcClient.make_request
    rw [hconn, if_pos rfl]
    dsimp only
    rw [gate_rejects_of_open _ start lf hopen hlf ht]
    dsimp only
    rw [if_neg Bool.false_ne_true, hconn]
  rw [hmk dur workResult]
  refine ⟨rfl, rfl, rfl, rfl, rfl, rfl, rfl, rfl, fun dur2 wr2 => ?_⟩
  rw [hmk dur2 wr2]

/-! ## Performance monitor lifetime aggregates (C7) -/

/-- `runRecords` on a cons. -/
theorem runRecords_cons (pm : PerformanceMonitor) (e : RecordEvent)
    (es : List RecordEvent) :
    pm.runRecords (e :: es)
      = (pm.record_request e.now e.duration e.success e.operation).runRecords es := rfl

/-- Lifetime request count after a run of records. -/
theorem runRecords_total (es : List RecordEvent) : ∀ pm : PerformanceMonitor,
    (pm.runRecords es).total_requests = pm.total_requests + es.length := by
  induction es with
  | nil => intro pm; simp [PerformanceMonitor.runRecords]
  | cons e es ih =>
    intro pm
    rw [runRecords_cons, ih]
    have : (pm.record_request e.now e.duration e.success e.operation).total_requests
        = pm.total_requests + 1 := rfl
    rw [this, List.length_cons]
    omega

/-- Lifetime duration sum after a run of records. -/
theorem runRecords_duration (es : List RecordEvent) : ∀ pm : PerformanceMonitor,
    (pm.runRecords es).total_duration
      = pm.total_duration + (es.map (fun e => e.duration)).sum := by
  induction es with
  | nil => intro pm; simp [PerformanceMonitor.runRecords]
  | cons e es ih =>
    intro pm
    rw [runRecords_cons, ih]
    have : (pm.record_request e.now e.duration e.success e.operation).total_duration
        = pm.total_duration + e.duration := rfl
    rw [this, List.map_cons, List.sum_cons]
    ring

/-- The minimum tracker after a run of records, starting from a finite
current minimum: the result is attained at the start value or at one of the
recorded durations, and bounds them all. -/
theorem runRecords_min_some (es : List RecordEvent) : ∀ (pm : PerformanceMonitor)
    (m0 : ℚ), pm.min_duration = some m0 →
    ∃ m, (pm.runRecords es).min_duration = some m ∧
      (m = m0 ∨ ∃ e ∈ es, m = e.duration) ∧ m ≤ m0 ∧ ∀ e ∈ es, m ≤ e.duration := by
  induction es with
  | nil =>
    intro pm m0 h
    exact ⟨m0, by simpa [PerformanceMonitor.runRecords] using h, Or.inl rfl,
      le_refl _, by simp⟩
  | cons e es ih =>
    intro pm m0 h
    have hrec : (pm.record_request e.now e.duration e.success e.operation).min_duration
        = some (if e.duration < m0 then e.duration else m0) := by
      unfold PerformanceMonitor.record_request
      dsimp only
      rw [h]
      dsimp only
      split_ifs <;> rfl
    rw [runRecords_cons]
    obtain ⟨m, hm, hor, hle, hall⟩ := ih _ _ hrec
    refine ⟨m, hm, ?_, ?_, ?_⟩
    · rcases hor with rfl | ⟨e2, he2, rfl⟩
      · by_cases hlt : e.duration < m0
        · right
          exact ⟨e, List.mem_cons_self e es, by simp [hlt]⟩
        · left
          simp [hlt]
      · right
        exact ⟨e2, List.mem_cons_of_mem e he2, rfl⟩
    · refine hle.trans ?_
      split_ifs with hlt
      · exact le_of_lt hlt
      · exact le_refl _
    · intro e2 he2
      rcases List.mem_cons.mp he2 with rfl | he2
      · refine hle.trans ?_
        split_ifs with hlt
        · exact le_refl _
        · exact not_lt.mp hlt
      · exact hall e2 he2

/-- The minimum tracker after a nonempty run of records from the infinity
sentinel: the result is attained at one of the recorded durations and bounds
them all. -/
theorem runRecords_min_none (e : RecordEvent) (es : List RecordEvent) :
    ∀ pm : PerformanceMonitor, pm.min_duration = none →
    ∃ m, (pm.runRecords (e :: es)).min_duration = some m ∧
      (∃ e2 ∈ e :: es, m = e2.duration) ∧ ∀ e2 ∈ e :: es, m ≤ e2.duration := by
  intro pm h
  have hrec : (pm.record_request e.now e.duration e.success e.operation).min_duration
      = some e.duration := by
    unfold PerformanceMonitor.record_request
    dsimp only
    rw [h]
  rw [runRecords_cons]
  obtain ⟨m, hm, hor, hle, hall⟩ := runRecords_min_some es _ e.duration hrec
  refine ⟨m, hm, ?_, ?_⟩
  · rcases hor with rfl | ⟨e2, he2, rfl⟩
    · exact ⟨e, List.mem_cons_self e es, rfl⟩
    · exact ⟨e2, List.mem_cons_of_mem e he2, rfl⟩
  · intro e2 he2
    rcases List.mem_cons.mp he2 with rfl | he2
    · exact hle
    · exact hall e2 he2

/-- The maximum tracker after a run of records: monotone in the start value,
attained at the start value or at one of the recorded durations, and an
upper bound of them all. -/
theorem runRecords_max (es : List RecordEvent) : ∀ pm : PerformanceMonitor,
    pm.max_duration ≤ (pm.runRecords es).max_duration ∧
    ((pm.runRecords es).max_duration = pm.max_duration ∨
      ∃ e ∈ es, (pm.runRecords es).max_duration = e.duration) ∧
    ∀ e ∈ es, e.duration ≤ (pm.runRecords es).max_duration := by
  induction es with
  | nil =>
    intro pm
    refine ⟨le_refl _, Or.inl rfl, by simp⟩
  | cons e es ih =>
    intro pm
    rw [runRecords_cons]
    have hrec : (pm.record_request e.now e.duration e.success e.operation).max_duration
        = if pm.max_duration < e.duration then e.duration else pm.max_duration := rfl
    obtain ⟨hle, hor, hall⟩ := ih (pm.record_request e.now e.duration e.success e.operation)
    rw [hrec] at hle hor
    constructor
    · refine le_trans ?_ hle
      split_ifs with hlt
      · exact le_of_lt hlt
      · exact le_refl _
    constructor
    · rcases hor with hor | ⟨e2, he2, h2⟩
      · by_cases hlt : pm.max_duration < e.duration
        · right
          refine ⟨e, List.mem_cons_self e es, ?_⟩
          rw [hor, if_pos hlt]
        · left
          rw [hor, if_neg hlt]
      · right
        exact ⟨e2, List.mem_cons_of_mem e he2, h2⟩
    · intro e2 he2
      rcases List.mem_cons.mp he2 with rfl | he2
      · refine le_trans ?_ hle
        split_ifs with hlt
        · exact le_refl _
        · exact not_lt.mp hlt
      · exact hall e2 he2

/-- C7: for every sequence of `record_request` calls (of any length, in
particular longer than `window_size`, so that the bounded window evicts old
entries), `get_metrics()` reports the lifetime aggregates: the average is
the sum of all recorded durations over their count (0 with no requests), and
min/max are the true minimum/maximum over all durations ever recorded (min
reported as 0 with no requests) — window eviction does not decay them. -/
theorem lifetime_aggregates (name : String) (w : Nat) (es : List RecordEvent)
    (hd : ∀ e ∈ es, 0 ≤ e.duration) :
    ((((PerformanceMonitor.init name w).runRecords es).get_metrics).average_response_time
      = if es.length = 0 then 0
        else (es.map (fun e => e.duration)).sum / (es.length : ℚ)) ∧
    (es = [] →
      (((PerformanceMonitor.init name w).runRecords es).get_metrics).min_response_time
          = some 0 ∧
      (((PerformanceMonitor.init name w).runRecords es).get_metrics).max_response_time
          = 0) ∧
    (es ≠ [] →
      (∃ e ∈ es, (((PerformanceMonitor.init name w).runRecords es).get_metrics).min_response_time
          = some e.duration) ∧
      (∀ e ∈ es, ∀ mv,
        (((PerformanceMonitor.init name w).runRecords es).get_metrics).min_response_time
            = some mv → mv ≤ e.duration) ∧
      (∃ e ∈ es, (((PerformanceMonitor.init name w).runRecords es).get_metrics).max_response_time
          = e.duration) ∧
      (∀ e ∈ es, e.duration ≤
        (((PerformanceMonitor.init name w).runRecords es).get_metrics).max_response_time)) := by
  have htot := runRecords_total es (PerformanceMonitor.init name w)
  have hdur := runRecords_duration es (PerformanceMonitor.init name w)
  have htot0 : (PerformanceMonitor.init name w).total_requests = 0 := rfl
  have hdur0 : (PerformanceMonitor.init name w).total_duration = 0 := rfl
  rw [htot0] at htot
  rw [hdur0] at hdur
  refine ⟨?_, ?_, ?_⟩
  · unfold PerformanceMonitor.get_metrics
    dsimp only
    rw [htot, hdur]
    rcases Nat.eq_zero_or_pos es.length with hz | hpos
    · simp [hz]
    · rw [if_pos (by omega), if_neg (by omega)]
      simp
  · intro he
    subst he
    exact ⟨rfl, rfl⟩
  · intro hne
    cases es with
    | nil => exact absurd rfl hne
    | cons e es =>
      obtain ⟨m, hm, hatt, hbound⟩ :=
        runRecords_min_none e es (PerformanceMonitor.init name w) rfl
      obtain ⟨hmax_le, hmax_or, hmax_all⟩ :=
        runRecords_max (e :: es) (PerformanceMonitor.init name w)
      have hmin_metrics :
          ((((PerformanceMonitor.init name w).runRecords (e :: es))).get_metrics).min_response_time
            = some m := by
        unfold PerformanceMonitor.get_metrics
        dsimp only
        rw [hm]
      have hmax_metrics :
          ((((PerformanceMonitor.init name w).runRecords (e :: es))).get_metrics).max_response_time
            = ((PerformanceMonitor.init name w).runRecords (e :: es)).max_duration := rfl
      refine ⟨?_, ?_, ?_, ?_⟩
      · obtain ⟨e2, he2, hm2⟩ := hatt
        exact ⟨e2, he2, by rw [hmin_metrics, hm2]⟩
      · intro e2 he2 mv hmv
        rw [hmin_metrics] at hmv
        obtain rfl : m = mv := Option.some.inj hmv
        exact hbound e2 he2
      · rcases hmax_or with hz | ⟨e2, he2, h2⟩
        · have hzero : ((PerformanceMonitor.init name w).runRecords (e :: es)).max_duration
              = 0 := by
            rw [hz]; rfl
          refine ⟨e, List.mem_cons_self e es, ?_⟩
          rw [hmax_metrics, hzero]
          have h1 : e.duration ≤ 0 := by
            have := hmax_all e (List.mem_cons_self e es)
            rw [hzero] at this
            exact this
          have h2 : 0 ≤ e.duration := hd e (List.mem_cons_self e es)
          linarith
        · exact ⟨e2, he2, by rw [hmax_metrics, h2]⟩
      · intro e2 he2
        rw [hmax_metrics]
        exact hmax_all e2 he2

/-- C7 (witness): window size 2, three recorded durations 3, 1, 2 — the
first entry is evicted from the bounded window, yet the lifetime average is
(3 + 1 + 2) / 3 = 2. -/
theorem lifetime_aggregates_witness :
    ((((PerformanceMonitor.init "svc" 2).runRecords
        [⟨0, 3, true, "op"⟩, ⟨1, 1, true, "op"⟩, ⟨2, 2, false, "op"⟩]).get_metrics).average_response_time
      = if ([⟨0, 3, true, "op"⟩, ⟨1, 1, true, "op"⟩,
            (⟨2, 2, false, "op"⟩ : RecordEvent)] : List RecordEvent).length = 0 then 0
        else (([⟨0, 3, true, "op"⟩, ⟨1, 1, true, "op"⟩,
            (⟨2, 2, false, "op"⟩ : RecordEvent)] : List RecordEvent).map
              (fun e => e.duration)).sum / 3) :=
  (lifetime_aggregates "svc" 2
    [⟨0, 3, true, "op"⟩, ⟨1, 1, true, "op"⟩, ⟨2, 2, false, "op"⟩]
    (by simp)).1

/-! ## Recent-window metrics (C8) -/

/-- Folding `min` over a list: the result bounds the seed and every element,
and is attained at the seed or in the list. -/
theorem foldl_min_facts (ds : List ℚ) : ∀ a : ℚ,
    ds.foldl min a ≤ a ∧ (∀ x ∈ ds, ds.foldl min a ≤ x) ∧
    (ds.foldl min a = a ∨ ds.foldl min a ∈ ds) := by
  induction ds with
  | nil => intro a; exact ⟨le_refl _, by simp, Or.inl rfl⟩
  | cons d ds ih =>
    intro a
    rw [List.foldl_cons]
    obtain ⟨h1, h2, h3⟩ := ih (min a d)
    refine ⟨h1.trans (min_le_left a d), ?_, ?_⟩
    · intro x hx
      rcases List.mem_cons.mp hx with rfl | hx
      · exact h1.trans (min_le_right a x)
      · exact h2 x hx
    · rcases h3 with h3 | h3
      · rcases min_choice a d with hc | hc
        · left
          rw [h3, hc]
        · right
          rw [h3, hc]
          exact List.mem_cons_self d ds
      · right
        exact List.mem_cons_of_mem d h3

/-- Folding `max` over a list: the result dominates the seed and every
element, and is attained at the seed or in the list. -/
theorem foldl_max_facts (ds : List ℚ) : ∀ a : ℚ,
    a ≤ ds.foldl max a ∧ (∀ x ∈ ds, x ≤ ds.foldl max a) ∧
    (ds.foldl max a = a ∨ ds.foldl max a ∈ ds) := by
  induction ds with
  | nil => intro a; exact ⟨le_refl _, by simp, Or.inl rfl⟩
  | cons d ds ih =>
    intro a
    rw [List.foldl_cons]
    obtain ⟨h1, h2, h3⟩ := ih (max a d)
    refine ⟨(le_max_left a d).trans h1, ?_, ?_⟩
    · intro x hx
      rcases List.mem_cons.mp hx with rfl | hx
      · exact (le_max_right a x).trans h1
      · exact h2 x hx
    · rcases h3 with h3 | h3
      · rcases max_choice a d with hc | hc
        · left
          rw [h3, hc]
        · right
          rw [h3, hc]
          exact List.mem_cons_self d ds
      · right
        exact List.mem_cons_of_mem d h3

/-- Python `min` of a nonempty list: attained and a lower bound. -/
theorem listMin_facts (d : ℚ) (ds : List ℚ) :
    listMin (d :: ds) ∈ d :: ds ∧ ∀ x ∈ d :: ds, listMin (d :: ds) ≤ x := by
  obtain ⟨h1, h2, h3⟩ := foldl_min_facts ds d
  unfold listMin
  dsimp only
  constructor
  · rcases h3 with h3 | h3
    · rw [h3]
      exact List.mem_cons_self d ds
    · exact List.mem_cons_of_mem d h3
  · intro x hx
    rcases List.mem_cons.mp hx with rfl | hx
    · exact h1
    · exact h2 x hx

/-- Python `max` of a nonempty list: attained and an upper bound. -/
theorem listMax_facts (d : ℚ) (ds : List ℚ) :
    listMax (d :: ds) ∈ d :: ds ∧ ∀ x ∈ d :: ds, x ≤ listMax (d :: ds) := by
  obtain ⟨h1, h2, h3⟩ := foldl_max_facts ds d
  unfold listMax
  dsimp only
  constructor
  · rcases h3 with h3 | h3
    · rw [h3]
      exact List.mem_cons_self d ds
    · exact List.mem_cons_of_mem d h3
  · intro x hx
    rcases List.mem_cons.mp hx with rfl | hx
    · exact h1
    · exact h2 x hx

/-- Python `min` over a mapped nonempty list: attained at a list element and
a lower bound of all of them. -/
theorem listMin_map_facts (f : RequestMetric → ℚ) (r1 : RequestMetric)
    (rs : List RequestMetric) :
    (∃ r ∈ r1 :: rs, listMin ((r1 :: rs).map f) = f r) ∧
    (∀ r ∈ r1 :: rs, listMin ((r1 :: rs).map f) ≤ f r) := by
  have hmap : (r1 :: rs).map f = f r1 :: rs.map f := List.map_cons f r1 rs
  have h := listMin_facts (f r1) (rs.map f)
  constructor
  · rw [hmap]
    rcases List.mem_cons.mp h.1 with heq | hmem
    · exact ⟨r1, List.mem_cons_self r1 rs, heq⟩
    · obtain ⟨r, hr, hrd⟩ := List.mem_map.mp hmem
      exact ⟨r, List.mem_cons_of_mem r1 hr, hrd.symm⟩
  · intro r hr
    rw [hmap]
    rcases List.mem_cons.mp hr with rfl | hr
    · exact h.2 (f r) (List.mem_cons_self (f r) _)
    · exact h.2 (f r) (List.mem_cons_of_mem _ (List.mem_map_of_mem f hr))

/-- Python `max` over a mapped nonempty list: attained at a list element and
an upper bound of all of them. -/
theorem listMax_map_facts (f : RequestMetric → ℚ) (r1 : RequestMetric)
    (rs : List RequestMetric) :
    (∃ r ∈ r1 :: rs, listMax ((r1 :: rs).map f) = f r) ∧
    (∀ r ∈ r1 :: rs, f r ≤ listMax ((r1 :: rs).map f)) := by
  have hmap : (r1 :: rs).map f = f r1 :: rs.map f := List.map_cons f r1 rs
  have h := listMax_facts (f r1) (rs.map f)
  constructor
  · rw [hmap]
    rcases List.mem_cons.mp h.1 with heq | hmem
    · exact ⟨r1, List.mem_cons_self r1 rs, heq⟩
    · obtain ⟨r, hr, hrd⟩ := List.mem_map.mp hmem
      exact ⟨r, List.mem_cons_of_mem r1 hr, hrd.symm⟩
  · intro r hr
    rw [hmap]
    rcases List.mem_cons.mp hr with rfl | hr
    · exact h.2 (f r) (List.mem_cons_self (f r) _)
    · exact h.2 (f r) (List.mem_cons_of_mem _ (List.mem_map_of_mem f hr))

/-- C8: `get_recent_metrics(seconds)` computes every metric from exactly the
window entries with `timestamp ≥ now − seconds`: count, success/failure
split, average = sum of their durations / count, throughput = count /
seconds, and true (attained) min/max over just that subset; when no entry
qualifies it returns the all-default (`PerformanceMetrics()`) snapshot. -/
theorem recent_metrics_spec (pm : PerformanceMonitor) (now seconds : ℚ) :
    ((pm.request_history.filter
        (fun r => decide (now - seconds ≤ r.timestamp))).isEmpty = true →
      pm.get_recent_metrics now seconds = {}) ∧
    (∀ r1 rs, pm.request_history.filter
        (fun r => decide (now - seconds ≤ r.timestamp)) = r1 :: rs →
      (pm.get_recent_metrics now seconds).total_requests = (r1 :: rs).length ∧
      (pm.get_recent_metrics now seconds).successful_requests
        = ((r1 :: rs).filter (fun r => r.success)).length ∧
      (pm.get_recent_metrics now seconds).failed_requests
        = (r1 :: rs).length - ((r1 :: rs).filter (fun r => r.success)).length ∧
      (pm.get_recent_metrics now seconds).average_response_time
        = ((r1 :: rs).map (fun r => r.duration)).sum / ((r1 :: rs).length : ℚ) ∧
      (pm.get_recent_metrics now seconds).throughput_per_second
        = ((r1 :: rs).length : ℚ) / seconds ∧
      (∃ r ∈ r1 :: rs,
        (pm.get_recent_metrics now seconds).min_response_time = some r.duration) ∧
      (∀ r ∈ r1 :: rs, ∀ mv,
        (pm.get_recent_metrics now seconds).min_response_time = some mv →
          mv ≤ r.duration) ∧
      (∃ r ∈ r1 :: rs,
        (pm.get_recent_metrics now seconds).max_response_time = r.duration) ∧
      (∀ r ∈ r1 :: rs,
        r.duration ≤ (pm.get_recent_metrics now seconds).max_response_time)) := by
  constructor
  · intro hempty
    unfold PerformanceMonitor.get_recent_metrics
    dsimp only
    rw [hempty]
    rfl
  · intro r1 rs hfilter
    have hrecent : pm.get_recent_metrics now seconds =
        { total_requests := (r1 :: rs).length
          successful_requests := ((r1 :: rs).filter (fun r => r.success)).length
          failed_requests := (r1 :: rs).length
            - ((r1 :: rs).filter (fun r => r.success)).length
          average_response_time := ((r1 :: rs).map (fun r => r.duration)).sum
            / ((r1 :: rs).length : ℚ)
          min_response_time := some (listMin ((r1 :: rs).map (fun r => r.duration)))
          max_response_time := listMax ((r1 :: rs).map (fun r => r.duration))
          last_request_time := some (listMax ((r1 :: rs).map (fun r => r.timestamp)))
          throughput_per_second := ((r1 :: rs).length : ℚ) / seconds } := by
      unfold PerformanceMonitor.get_recent_metrics
      dsimp only
      rw [hfilter]
      rfl
    rw [hrecent]
    refine ⟨rfl, rfl, rfl, rfl, rfl, ?_, ?_, ?_, ?_⟩
    · obtain ⟨r, hr, hrd⟩ := (listMin_map_facts (fun r => r.duration) r1 rs).1
      exact ⟨r, hr, by rw [hrd]⟩
    · intro r hr mv hmv
      obtain rfl : listMin ((r1 :: rs).map (fun r => r.duration)) = mv :=
        Option.some.inj hmv
      exact (listMin_map_facts (fun r => r.duration) r1 rs).2 r hr
    · obtain ⟨r, hr, hrd⟩ := (listMax_map_facts (fun r => r.duration) r1 rs).1
      exact ⟨r, hr, hrd⟩
    · intro r hr
      exact (listMax_map_facts (fun r => r.duration) r1 rs).2 r hr

/-- C3 (amended, witness): on the concrete open client, a request at time 1
is rejected with the breaker-open error and the unit of work is not
invoked. -/
theorem make_request_breaker_open_witness :
    (openClient.make_request 1 0 none "health_check").outcome
        = .error (CircuitBreaker.openError "risk-monitor") ∧
    (openClient.make_request 1 0 none "health_check").invoked_work = false :=
  ⟨(make_request_breaker_open openClient 1 0 none "health_check" 0 rfl rfl rfl
      (by simp [openClient, BaseGrpcClient.init, CircuitBreaker.init])).1,
   (make_request_breaker_open openClient 1 0 none "health_check" 0 rfl rfl rfl
      (by simp [openClient, BaseGrpcClient.init, CircuitBreaker.init])).2.2.2.1⟩

/-- A concrete monitor whose bounded window holds two entries, at times 100
(duration 5, success) and 50 (duration 7, failure). -/
def pmRecent : PerformanceMonitor :=
  { PerformanceMonitor.init "svc" 1000 with
    request_history := [⟨100, 5, true, "a"⟩, ⟨50, 7, false, "b"⟩] }

/-- C8 (witness): at `now = 60`, `seconds = 60`, both entries qualify
(cutoff 0), so the recent snapshot counts 2 requests, 1 of them
successful. -/
theorem recent_metrics_spec_witness :
    (pmRecent.get_recent_metrics 60 60).total_requests = 2 ∧
    (pmRecent.get_recent_metrics 60 60).successful_requests = 1 := by
  have h := (recent_metrics_spec pmRecent 60 60).2 ⟨100, 5, true, "a"⟩
    [⟨50, 7, false, "b"⟩]
    (by simp [pmRecent, PerformanceMonitor.init])
  exact ⟨h.1, h.2.1⟩

/-! ## Throughput window characterization (C2) -/

/-- On a sorted list, pruning from the left after skipping `m` elements
lands at index `max m (number of elements below the cutoff)`. -/
theorem sorted_dropWhile_drop (c : ℚ) : ∀ u : List ℚ, u.Sorted (· ≤ ·) →
    ∀ m : Nat, (u.drop m).dropWhile (fun x => decide (x < c))
      = u.drop (max m (u.countP (fun x => decide (x < c)))) := by
  intro u
  induction u with
  | nil => intro _ m; simp
  | cons a v ih =>
    intro hs m
    have hs2 : v.Sorted (· ≤ ·) := hs.of_cons
    have ha : ∀ x ∈ v, a ≤ x := List.rel_of_sorted_cons hs
    have hv0 : ¬ a < c → v.countP (fun x => decide (x < c)) = 0 := by
      intro hpa
      rw [List.countP_eq_zero]
      intro x hx
      simp only [decide_eq_true_eq]
      intro hxc
      exact hpa (lt_of_le_of_lt (ha x hx) hxc)
    cases m with
    | zero =>
      by_cases hpa : a < c
      · rw [List.drop_zero, List.dropWhile_cons_of_pos (by simpa using hpa)]
        have h0 := ih hs2 0
        rw [List.drop_zero] at h0
        rw [h0, List.countP_cons_of_pos _ _ (by simpa using hpa)]
        rw [Nat.max_eq_right (Nat.zero_le _), Nat.max_eq_right (Nat.zero_le _)]
        rw [List.drop_succ_cons]
      · rw [List.drop_zero, List.dropWhile_cons_of_neg (by simpa using hpa)]
        rw [List.countP_cons_of_neg _ _ (by simpa using hpa), hv0 hpa]
        simp
    | succ k =>
      rw [List.drop_succ_cons, ih hs2 k]
      by_cases hpa : a < c
      · rw [List.countP_cons_of_pos _ _ (by simpa using hpa)]
        rw [show max (k + 1) (v.countP (fun x => decide (x < c)) + 1)
            = max k (v.countP (fun x => decide (x < c))) + 1 from by omega]
        rw [List.drop_succ_cons]
      · rw [List.countP_cons_of_neg _ _ (by simpa using hpa), hv0 hpa]
        simp

/-- On a sorted list, filtering at-or-above a cutoff is pruning from the
left below it. -/
theorem sorted_filter_ge (c : ℚ) : ∀ u : List ℚ, u.Sorted (· ≤ ·) →
    u.filter (fun x => decide (c ≤ x))
      = u.dropWhile (fun x => decide (x < c)) := by
  intro u
  induction u with
  | nil => intro _; simp
  | cons a v ih =>
    intro hs
    have hs2 : v.Sorted (· ≤ ·) := hs.of_cons
    have ha : ∀ x ∈ v, a ≤ x := List.rel_of_sorted_cons hs
    by_cases hpa : c ≤ a
    · rw [List.filter_cons_of_pos (by simpa using hpa),
        List.dropWhile_cons_of_neg (by simpa using not_lt.mpr hpa)]
      congr 1
      rw [List.filter_eq_self]
      intro x hx
      simpa using hpa.trans (ha x hx)
    · rw [List.filter_cons_of_neg (by simpa using hpa),
        List.dropWhile_cons_of_pos (by simpa using not_le.mp hpa), ih hs2]

/-- After processing a nonempty nondecreasing sequence of timestamps, the
throughput deque holds the suffix of the sequence starting at index
`max (number below the final cutoff) (length − 60)`. -/
theorem twFold_char : ∀ (l : List ℚ) (t : ℚ), (l ++ [t]).Sorted (· ≤ ·) →
    List.foldl throughputStep [] (l ++ [t])
      = (l ++ [t]).drop (max ((l ++ [t]).countP (fun x => decide (x < t - 60)))
          ((l ++ [t]).length - 60)) := by
  intro l
  induction l using List.reverseRecOn with
  | nil =>
    intro t _
    have hnot : ¬ (t < t - 60) := by linarith
    simp only [List.nil_append, List.foldl_cons, List.foldl_nil]
    have h1 : dequeAppend 60 ([] : List ℚ) t = [t] := rfl
    unfold throughputStep
    rw [h1, List.dropWhile_cons_of_neg (by simp [hnot])]
    rw [List.countP_cons_of_neg _ _ (by simp [hnot]), List.countP_nil]
    rfl
  | append_singleton l T ihl =>
    intro t hsort
    have hsort1 : (l ++ [T]).Sorted (· ≤ ·) :=
      List.Pairwise.sublist (List.sublist_append_left (l ++ [T]) [t]) hsort
    have hTt : T ≤ t := by
      have := List.pairwise_append.mp hsort
      exact this.2.2 T (by simp) t (by simp)
    have hcc : T - 60 ≤ t - 60 := by linarith
    rw [List.foldl_append, List.foldl_cons, List.foldl_nil, ihl T hsort1]
    set X := l ++ [T] with hX
    set n := X.length with hn
    set g := X.countP (fun x => decide (x < T - 60)) with hg
    set G := (X ++ [t]).countP (fun x => decide (x < t - 60)) with hG
    have hgn : g ≤ n := List.countP_le_length _
    have hGle : G ≤ n := by
      rw [hG, List.countP_append]
      have h1 : X.countP (fun x => decide (x < t - 60)) ≤ n :=
        List.countP_le_length _
      have h2 : List.countP (fun x => decide (x < t - 60)) [t] = 0 := by
        rw [List.countP_eq_zero]
        intro x hx
        rw [List.mem_singleton] at hx
        subst hx
        simp only [decide_eq_true_eq]
        intro hxc
        linarith
      omega
    have hgG : g ≤ G := by
      rw [hG, List.countP_append]
      have h1 : g ≤ X.countP (fun x => decide (x < t - 60)) := by
        rw [hg]
        refine List.countP_mono_left ?_
        intro x _ hx
        simp only [decide_eq_true_eq] at hx ⊢
        linarith
      omega
    set K := max g (n - 60) with hK
    have hKn : K ≤ n := by omega
    have hlen : (X.drop K ++ [t]).length = (n - K) + 1 := by
      rw [List.length_append, List.length_drop]
      simp
    unfold throughputStep dequeAppend
    dsimp only
    rw [hlen]
    rw [← List.drop_append_of_le_length hKn]
    rw [List.drop_drop]
    have hsorted2 : (X ++ [t]).Sorted (· ≤ ·) := hsort
    rw [sorted_dropWhile_drop (t - 60) (X ++ [t]) hsorted2]
    congr 1
    have hlen2 : (X ++ [t]).length = n + 1 := by
      rw [List.length_append]
      simp
    rw [hlen2, ← hG]
    omega

/-- The throughput deque after a run of records is the fold of
`_update_throughput` over the recorded timestamps. -/
theorem runRecords_tw (es : List RecordEvent) : ∀ pm : PerformanceMonitor,
    (pm.runRecords es).throughput_window
      = (es.map (fun e => e.now)).foldl throughputStep pm.throughput_window := by
  induction es with
  | nil => intro pm; rfl
  | cons e es ih =>
    intro pm
    rw [runRecords_cons, ih, List.map_cons, List.foldl_cons]
    rfl

/-- C2 (amended): for a nondecreasing sequence of `record_request` calls
ending at time `t`, the throughput window afterwards holds, in order, the
most recent `min 60 k` of the `k` recorded timestamps within the last 60
seconds (the deque is bounded at 60 entries, so older in-range timestamps
beyond that capacity are evicted); every entry is `≥ t − 60`; and
`get_metrics()` reports `throughput_per_second` as the window count divided
by 60.0. -/
theorem throughput_window_spec (name : String) (w : Nat) (es : List RecordEvent)
    (l : List ℚ) (t : ℚ)
    (htimes : es.map (fun e => e.now) = l ++ [t])
    (hsort : (l ++ [t]).Sorted (· ≤ ·)) :
    ((PerformanceMonitor.init name w).runRecords es).throughput_window
      = ((l ++ [t]).filter (fun x => decide (t - 60 ≤ x))).drop
          (((l ++ [t]).filter (fun x => decide (t - 60 ≤ x))).length - 60) ∧
    (∀ x ∈ ((PerformanceMonitor.init name w).runRecords es).throughput_window,
      t - 60 ≤ x) ∧
    (((PerformanceMonitor.init name w).runRecords es).get_metrics).throughput_per_second
      = ((((PerformanceMonitor.init name w).runRecords es).throughput_window).length : ℚ)
          / 60 := by
  have hwin : ((PerformanceMonitor.init name w).runRecords es).throughput_window
      = ((l ++ [t]).filter (fun x => decide (t - 60 ≤ x))).drop
          (((l ++ [t]).filter (fun x => decide (t - 60 ≤ x))).length - 60) := by
    rw [runRecords_tw, htimes]
    have h0 : (PerformanceMonitor.init name w).throughput_window = [] := rfl
    rw [h0, twFold_char l t hsort]
    have hdw : (l ++ [t]).dropWhile (fun x => decide (x < t - 60))
        = (l ++ [t]).drop (max 0 ((l ++ [t]).countP (fun x => decide (x < t - 60)))) := by
      have h1 := sorted_dropWhile_drop (t - 60) (l ++ [t]) hsort 0
      rwa [List.drop_zero] at h1
    rw [sorted_filter_ge (t - 60) (l ++ [t]) hsort, hdw]
    set X := l ++ [t] with hX
    set G := X.countP (fun x => decide (x < t - 60)) with hG
    have hGn : G ≤ X.length := List.countP_le_length _
    rw [List.length_drop, List.drop_drop]
    congr 1
    rw [Nat.max_eq_right (Nat.zero_le _)]
    omega
  refine ⟨hwin, ?_, rfl⟩
  intro x hx
  rw [hwin] at hx
  have hx2 : x ∈ (l ++ [t]).filter (fun x => decide (t - 60 ≤ x)) :=
    List.mem_of_mem_drop hx
  have := List.of_mem_filter hx2
  simpa using this

/-- C2 (amended, witness): two records at times 0 and 30 — both within 60
seconds of the final time — characterize the window exactly. -/
theorem throughput_window_spec_witness :
    ((PerformanceMonitor.init "svc" 1000).runRecords
        [⟨0, 1, true, "op"⟩, ⟨30, 1, true, "op"⟩]).throughput_window
      = ((([0] : List ℚ) ++ [30]).filter (fun x => decide ((30:ℚ) - 60 ≤ x))).drop
          (((([0] : List ℚ) ++ [30]).filter
            (fun x => decide ((30:ℚ) - 60 ≤ x))).length - 60) :=
  (throughput_window_spec "svc" 1000
    [⟨0, 1, true, "op"⟩, ⟨30, 1, true, "op"⟩] [0] 30 rfl
    (by simp [List.Sorted])).1

/-- One pruning step at constant time 0 on a window of `k` zeros yields
`min (k + 1) 60` zeros: the deque append caps the length at 60 and the
cutoff `-60` prunes nothing. -/
theorem throughputStep_replicate_zero (k : Nat) :
    throughputStep (List.replicate k (0 : ℚ)) 0
      = List.replicate (min (k + 1) 60) (0 : ℚ) := by
  unfold throughputStep dequeAppend
  rw [show List.replicate k (0 : ℚ) ++ [0] = List.replicate (k + 1) (0 : ℚ) from by
    rw [← List.replicate_succ' k (0 : ℚ)]]
  dsimp only
  rw [List.length_replicate, List.drop_replicate]
  rw [show k + 1 - (k + 1 - 60) = min (k + 1) 60 from by omega]
  have hnot : ¬ ((0 : ℚ) < 0 - 60) := by linarith
  cases hmin : min (k + 1) 60 with
  | zero => rfl
  | succ j =>
    rw [List.replicate_succ, List.dropWhile_cons_of_neg (by simp [hnot])]

/-- Folding the pruning step over `n` zero timestamps caps the window at 60
entries. -/
theorem twFold_replicate_zero : ∀ (n k : Nat), k ≤ 60 →
    (List.replicate n (0 : ℚ)).foldl throughputStep (List.replicate k (0 : ℚ))
      = List.replicate (min (k + n) 60) (0 : ℚ) := by
  intro n
  induction n with
  | zero =>
    intro k hk
    rw [List.replicate_zero, List.foldl_nil]
    congr 1
    omega
  | succ m ih =>
    intro k hk
    rw [List.replicate_succ, List.foldl_cons, throughputStep_replicate_zero]
    rw [ih (min (k + 1) 60) (by omega)]
    congr 1
    omega

/-- C2 (counterexample): 61 record_request calls all at time 0 are all
within the last 60 seconds, but the throughput window afterwards holds only
60 entries, not one per such call: the deque's `maxlen = 60` evicts the
oldest in-range timestamp. -/
theorem throughput_window_counterexample :
    (((PerformanceMonitor.init "svc" 1000).runRecords
        (List.replicate 61 ⟨0, 1, true, "op"⟩)).throughput_window).length = 60 ∧
    (((List.replicate 61 (⟨0, 1, true, "op"⟩ : RecordEvent)).map
        (fun e => e.now)).filter (fun x => decide ((0:ℚ) - 60 ≤ x))).length = 61 := by
  constructor
  · rw [runRecords_tw, List.map_replicate]
    have h0 : (PerformanceMonitor.init "svc" 1000).throughput_window
        = List.replicate 0 (0 : ℚ) := rfl
    rw [h0, twFold_replicate_zero 61 0 (by omega)]
    rw [List.length_replicate]
    omega
  · rw [List.map_replicate]
    have hall : ((List.replicate 61 (0:ℚ)).filter
        (fun x => decide ((0:ℚ) - 60 ≤ x))) = List.replicate 61 (0:ℚ) := by
      rw [List.filter_eq_self]
      intro x hx
      rw [List.eq_of_mem_replicate hx]
      simp only [decide_eq_true_eq]
      linarith
    rw [hall, List.length_replicate]

end TradingEngine
